import Mathlib

/-!
Verification of the structural pattern-extraction engine of the
weeklybeatsscraper repository against its specification.

The development shallowly embeds the two variants of the extractor:

* `WB` — the streaming parser `HTMLTrackParser` of `weeklybeatswatcher.py`
  (an `html.parser.HTMLParser` subclass driven by start-tag, end-tag and
  data events), together with `check_new_comments` from the same file.
* `TS` — the tree-walking scraper `TrackListScraper` of `trackscraper.py`
  (built on BeautifulSoup), together with the pagination loop of
  `scrape_week_tracks`.

Python dictionaries are modelled as association lists read through a
last-binding-wins lookup, which matches the observable behaviour of
`dict` construction from a pair list (later duplicates win) and of item
assignment.  Fallible Python operations (`KeyError`, `IndexError`,
`ValueError` from `int`) are modelled with `Except` / `Option`.
-/

instance {ε α : Type} [DecidableEq ε] [DecidableEq α] :
    DecidableEq (Except ε α) := fun a b =>
  match a, b with
  | .ok x, .ok y =>
    if h : x = y then .isTrue (by rw [h])
    else .isFalse (fun hc => by cases hc; exact h rfl)
  | .error x, .error y =>
    if h : x = y then .isTrue (by rw [h])
    else .isFalse (fun hc => by cases hc; exact h rfl)
  | .ok _, .error _ => .isFalse (fun hc => by cases hc)
  | .error _, .ok _ => .isFalse (fun hc => by cases hc)

namespace WB

/-- Models Python `str.startswith`, character by character. -/
def strStartsWith (s p : String) : Bool := p.data.isPrefixOf s.data

/-- Whitespace tokenizer behind `pySplit`: accumulates the current token in
reverse and emits tokens at whitespace boundaries, dropping empty ones. -/
def wsTokens : List Char → List Char → List String
  | [], acc => if acc.isEmpty then [] else [String.mk acc.reverse]
  | c :: cs, acc =>
    if c.isWhitespace then
      (if acc.isEmpty then [] else [String.mk acc.reverse]) ++ wsTokens cs []
    else wsTokens cs (c :: acc)

/-- Decimal digit accumulator behind `pyInt`: `none` on the empty digit
string or any non-digit character. -/
def digitsVal : List Char → Option Nat → Option Nat
  | [], acc => acc
  | c :: cs, acc =>
    if 48 ≤ c.toNat && c.toNat ≤ 57 then
      digitsVal cs (some ((acc.getD 0) * 10 + (c.toNat - 48)))
    else none

/-- Converted field values stored in a track record: the Python code stores
either strings (id, title) or ints (week, comments). -/
inductive Value where
  | str : String → Value
  | int : Int → Value
deriving Repr, BEq, DecidableEq

/-- A track record models the Python dict built for one list item.  Item
assignment appends a binding; `rget` reads the latest binding, which is
observationally the Python dict lookup. -/
abbrev Record := List (String × Value)

/-- Latest-binding lookup, the observable content of a Python dict. -/
def rget (r : Record) (k : String) : Option Value :=
  ((r.filter (fun p => p.1 == k)).getLast?).map (fun p => p.2)

/-- Models Python dict item assignment `r[k] = v`. -/
def rset (r : Record) (k : String) (v : Value) : Record :=
  r ++ [(k, v)]

/-- Models `dict(attrs).get(k)` on an attribute pair list: Python `dict`
keeps the last value bound to a duplicated key. -/
def pyGet (attrs : List (String × String)) (k : String) : Option String :=
  ((attrs.filter (fun p => p.1 == k)).getLast?).map (fun p => p.2)

/-- Models Python `str.split()` with no argument: split on whitespace runs,
discarding empty pieces. -/
def pySplit (s : String) : List String := wsTokens s.data []

/-- Models Python `int(s)`: strip surrounding whitespace, allow one sign,
then require a nonempty run of decimal digits; a failing conversion
(Python `ValueError`) is `none`.  Underscore digit grouping is omitted as
unused by this program. -/
def pyInt (s : String) : Option Int :=
  let cs := ((s.data.dropWhile Char.isWhitespace).reverse.dropWhile
    Char.isWhitespace).reverse
  match cs with
  | '-' :: rest => (digitsVal rest none).map (fun n => -(n : Int))
  | '+' :: rest => (digitsVal rest none).map (fun n => (n : Int))
  | _ => (digitsVal cs none).map (fun n => (n : Int))

/-- The marker test of `handle_starttag`:
`attrs.get("class", "").startswith("main-item")`. -/
def markerClass (attrs : List (String × String)) : Bool :=
  strStartsWith ((pyGet attrs "class").getD "") "main-item"

/-- One open element of the parser stack: tag name and attribute dict. -/
abbrev FrameW := String × List (String × String)

/-- One signature step of `handle_data`: tag name plus required attributes
with exact string values. -/
abbrev StepW := String × List (String × String)

/-- The per-element check inside the `handle_data` matching loop: the step
name must equal the frame name and every required attribute must be present
with exactly the required value (`attr not in tag[1] or tag[1][attr] !=
test[1][attr]` breaks the match). -/
def sigStepMatch (frame : FrameW) (step : StepW) : Bool :=
  step.1 == frame.1 && step.2.all (fun av => pyGet frame.2 av.1 == some av.2)

/-- The whole-signature check of `handle_data`:
`zip(self._opentags[-len(conditions):], conditions)` pairs the innermost
`len(conditions)` stack slots with the steps (both outermost first) and
every pair must satisfy `sigStepMatch`; `zip` truncates to the shorter
sequence when the stack is shallower than the signature. -/
def sigMatchStream (opentags : List FrameW) (conditions : List StepW) : Bool :=
  ((opentags.drop (opentags.length - conditions.length)).zip conditions).all
    (fun fc => sigStepMatch fc.1 fc.2)

/-- The `title` signature of `handle_data`. -/
def sigTitleW : List StepW :=
  [("div", [("class", "item-subject")]), ("h3", []), ("a", [])]

/-- The `week` signature of `handle_data`. -/
def sigWeekW : List StepW :=
  [("li", [("class", "info-views")]), ("strong", [])]

/-- The `comments` signature of `handle_data`. -/
def sigCommentsW : List StepW :=
  [("li", [("class", "info-replies")]), ("strong", [])]

/-- The signature table of `handle_data`, in dict iteration order. -/
def signaturesW : List (String × List StepW) :=
  [("title", sigTitleW), ("week", sigWeekW), ("comments", sigCommentsW)]

/-- The converter table of `handle_data`: week is `int(s.split()[1])`,
comments is `int`, everything else defaults to `str`.  A raised Python
exception (IndexError or ValueError) is `none`. -/
def convertW (thing : String) (d : String) : Option Value :=
  if thing == "week" then ((pySplit d).get? 1).bind (fun t => (pyInt t).map Value.int)
  else if thing == "comments" then (pyInt d).map Value.int
  else some (Value.str d)

/-- Errors the parser can raise: the unclosed-item ValueError of
`handle_starttag`, the mismatch ValueError of `handle_endtag`, the KeyError
on a marker without an id attribute, and a converter exception. -/
inductive PErr where
  | unclosedItem
  | mismatchTag
  | missingKey
  | convertError
deriving Repr, BEq, DecidableEq

/-- Parser state: the fields of `HTMLTrackParser`.  Sealed records are
appended to `tracks` exactly as Python appends `self._listitem`. -/
structure PState where
  opentags : List FrameW
  listitem : Option Record
  itemdepth : Nat
  tracks : List (Option Record)
deriving Repr, BEq, DecidableEq

/-- Structural events fed to the parser by `HTMLParser`. -/
inductive Event where
  | starttag : String → List (String × String) → Event
  | endtag : String → Event
  | data : String → Event
deriving Repr, BEq, DecidableEq

/-- The body of the matching loop of `handle_data` for one signature table
entry: on a match, convert the data and assign the field (a converter
exception aborts); otherwise leave the record unchanged. -/
def dataStep (path : List FrameW) (d : String) (it : Record)
    (tc : String × List StepW) : Except PErr Record :=
  if sigMatchStream path tc.2 then
    match convertW tc.1 d with
    | none => .error .convertError
    | some v => .ok (rset it tc.1 v)
  else .ok it

/-- `handle_data`: ignored when no list item is open, else the signature
table is folded over the current record. -/
def handleData (s : PState) (d : String) : Except PErr PState :=
  match s.listitem with
  | none => .ok s
  | some item =>
    (signaturesW.foldlM (dataStep s.opentags d) item).map
      (fun it => { s with listitem := some it })

/-- One structural event of `HTMLTrackParser`: `handle_starttag`,
`handle_endtag` or `handle_data`, faithful to the source including the
ignore list (`input` tags are skipped in both handlers), the marker test,
the unclosed-item and mismatch errors, and depth-based sealing. -/
def stepP (s : PState) : Event → Except PErr PState
  | .starttag tag attrs =>
    if tag == "input" then .ok s
    else
      let s1 : PState := { s with opentags := s.opentags ++ [(tag, attrs)] }
      if tag == "div" && markerClass attrs then
        match s.listitem with
        | some _ => .error .unclosedItem
        | none =>
          match pyGet attrs "id" with
          | none => .error .missingKey
          | some v =>
            .ok { s1 with listitem := some [("id", Value.str v)],
                          itemdepth := s1.opentags.length }
      else .ok s1
  | .endtag tag =>
    if tag == "input" then .ok s
    else
      match s.opentags.getLast? with
      | none => .error .mismatchTag
      | some top =>
        if tag != top.1 then .error .mismatchTag
        else
          let s1 : PState := { s with opentags := s.opentags.dropLast }
          if s1.opentags.length < s1.itemdepth then
            .ok { s1 with tracks := s1.tracks ++ [s1.listitem],
                          listitem := none, itemdepth := 0 }
          else .ok s1
  | .data d => handleData s d

/-- Runs the parser over an event stream; the first raised error aborts. -/
def runP (evs : List Event) (s : PState) : Except PErr PState :=
  evs.foldlM stepP s

/-- The freshly constructed parser state. -/
def initP : PState := ⟨[], none, 0, []⟩

/-- The id field of a sealed track, used to state document-order results. -/
def trackId (o : Option Record) : Option Value :=
  o.bind (fun r => rget r "id")

mutual

/-- A well-nested document node: an element with children, or a text node.
Flattening a node produces the event stream `HTMLParser` would emit for the
corresponding well-nested markup. -/
inductive HNode : Type where
  | elem : String → List (String × String) → HForest → HNode
  | text : String → HNode

/-- A sequence of sibling document nodes. -/
inductive HForest : Type where
  | nil : HForest
  | cons : HNode → HForest → HForest

end

/-- The event stream of a well-nested forest: each element contributes its
start tag, the events of its children, and its end tag. -/
def flattenF : HForest → List Event
  | .nil => []
  | .cons (.text d) rest => .data d :: flattenF rest
  | .cons (.elem t a cs) rest =>
    .starttag t a :: (flattenF cs ++ .endtag t :: flattenF rest)

/-- The id attributes of the marker elements of a forest, in document
order.  A marker is an element passing the `handle_starttag` test:
tag `div` with a class attribute starting with `main-item`. -/
def markerIdsF : HForest → List String
  | .nil => []
  | .cons (.text _) rest => markerIdsF rest
  | .cons (.elem t a cs) rest =>
    (if t == "div" && markerClass a then [(pyGet a "id").getD ""] else [])
      ++ (markerIdsF cs ++ markerIdsF rest)

/-- One saved or freshly scraped track entry as `check_new_comments` reads
it: the `week` and `comments` items of the track dict (its other items are
not consulted). -/
structure WEntry where
  week : Int
  comments : Int
deriving Repr, BEq, DecidableEq

/-- Models the `week_indexed` dict comprehension of `check_new_comments`
observationally: the entry a week maps to is the last entry carrying that
week (later comprehension items overwrite earlier ones). -/
def weekIndexed (a : List WEntry) (w : Int) : Option WEntry :=
  (a.filter (fun e => e.week == w)).getLast?

/-- The key sequence of the `week_indexed` dict: distinct weeks in first
occurrence order, as Python dict iteration yields them. -/
def dictKeys (a : List WEntry) : List Int :=
  a.foldl (fun acc e => if e.week ∈ acc then acc else acc ++ [e.week]) []

/-- Embedding of `check_new_comments`: for each week of the current tracks
present in the saved record, report the comment count difference when it
is nonzero.  The result models the `new_comments` dict as an association
list in insertion order. -/
def check_new_comments (tracks record : List WEntry) : List (Int × Int) :=
  (dictKeys tracks).filterMap (fun w =>
    match weekIndexed record w with
    | none => none
    | some r =>
      match weekIndexed tracks w with
      | none => none
      | some t =>
        if t.comments - r.comments != 0 then some (w, t.comments - r.comments)
        else none)

end WB

namespace TS

/-- A BeautifulSoup tag as seen by the scraper: element name and raw
attribute pairs as parsed from the markup. -/
structure BTag where
  name : String
  attrs : List (String × String)
deriving Repr, BEq, DecidableEq

/-- A Python attribute value as BeautifulSoup hands it out: a plain string,
or a token list for multi-valued attributes such as `class`. -/
inductive PyVal where
  | str : String → PyVal
  | list : List String → PyVal
deriving Repr, DecidableEq

/-- The html multi-valued attributes relevant to this program: only `class`
appears in its signatures. -/
def multiValued (a : String) : Bool := a == "class"

/-- Models BeautifulSoup item access `tag[attr]` combined with
`tag.has_attr(attr)`: `none` when absent, the whitespace-split token list
for multi-valued attributes, the raw string otherwise. -/
def bs4Get (attrs : List (String × String)) (k : String) : Option PyVal :=
  (WB.pyGet attrs k).map
    (fun v => if multiValued k then .list (WB.pySplit v) else .str v)

/-- Python truthiness of the constraint values used in signatures. -/
def pyTruthy : PyVal → Bool
  | .str s => !(s == "")
  | .list l => !l.isEmpty

/-- One signature item: element name plus required attribute constraints. -/
abbrev SigKey := String × List (String × PyVal)

/-- Embedding of `TrackListScraper._signature_key_match`: the tag name must
equal the key name; each required attribute must be present; a truthy
constraint value must equal the BeautifulSoup attribute value exactly
(`if value and value != tag[attr]: return False`). -/
def signature_key_match (tag : BTag) (key : SigKey) : Bool :=
  tag.name == key.1 &&
    key.2.all (fun av =>
      match bs4Get tag.attrs av.1 with
      | none => false
      | some w => !(pyTruthy av.2) || av.2 == w)

/-- Embedding of the closure built by
`TrackListScraper._signature_match_function`: the last signature item is
checked against the tag itself, and `zip(tag.parents, sig[-2::-1])` checks
the remaining items against the chain of enclosing elements, nearest
first; every zipped pair must match.  `parents` is the real ancestor
chain, innermost first, ending with the BeautifulSoup document sentinel. -/
def signature_match (sig : List SigKey) (tag : BTag) (parents : List BTag) :
    Bool :=
  match sig.getLast? with
  | none => false
  | some k =>
    signature_key_match tag k &&
      (parents.zip sig.dropLast.reverse).all
        (fun pk => signature_key_match pk.1 pk.2)

/-- The `title` signature of `TrackListScraper.__init__`. -/
def sigTitleT : List SigKey :=
  [("div", [("class", PyVal.list ["item-subject"])]), ("h3", []), ("a", [])]

/-- The signature table of the base `TrackListScraper`. -/
def signaturesT : List (String × List SigKey) := [("title", sigTitleT)]

/-- The BeautifulSoup document object closing every ancestor chain; its
name never equals a markup element name. -/
def docTag : BTag := ⟨"[document]", []⟩

/-- A tag found by a tree search: its name/attributes, its children and
its ancestor chain (innermost first, ending at the document sentinel). -/
structure Found where
  tag : BTag
  kids : WB.HForest
  anc : List BTag

/-- All element descendants of a forest in document order (the order
`find_all` reports), each with its ancestor chain.  `anc` is the chain of
the forest roots. -/
def descendsF (anc : List BTag) : WB.HForest → List Found
  | .nil => []
  | .cons (.text _) rest => descendsF anc rest
  | .cons (.elem t a cs) rest =>
    ⟨⟨t, a⟩, cs, anc⟩ :: (descendsF (⟨t, a⟩ :: anc) cs ++ descendsF anc rest)

/-- Models BeautifulSoup `tag.string`: the string of a lone child,
recursively; `None` when there is no unique child. -/
def nodeString : WB.HNode → Option String
  | .text d => some d
  | .elem _ _ (.cons c .nil) => nodeString c
  | .elem _ _ .nil => none
  | .elem _ _ (.cons _ (.cons _ _)) => none

/-- Models Python `str` applied to a `tag.string` result: `None` prints as
the string `None`. -/
def pyStrOpt : Option String → String
  | some s => s
  | none => "None"

/-- The matcher of `find_all("div", class_=re.compile("^main-item"))`:
BeautifulSoup matches the pattern against each class token of the
multi-valued class attribute. -/
def classMainItem (attrs : List (String × String)) : Bool :=
  match bs4Get attrs "class" with
  | some (.list toks) => toks.any (fun t => WB.strStartsWith t "main-item")
  | some (.str s) => WB.strStartsWith s "main-item"
  | none => false

/-- The error raised by `result[0]` on an empty result list. -/
inductive TErr where
  | indexError
deriving Repr, BEq, DecidableEq

/-- A scraped track record: `feed` stores `str(...)` results only. -/
abbrev TRecord := List (String × String)

/-- The `result = track_tag.find_all(self._signature_match_function(sig))`
computation of `feed`: every descendant of the track tag matching the
signature, in document order. -/
def findMatches (f : Found) (sig : List SigKey) : List Found :=
  (descendsF (f.tag :: f.anc) f.kids).filter
    (fun d => signature_match sig d.tag d.anc)

/-- The per-track body of `TrackListScraper.feed`: for each signature table
entry, `find_all` over the track contents with the signature matcher; a
cardinality diagnostic (field name, match count) is printed when the count
differs from one; then `result[0]` is converted and stored, raising
IndexError when there is no match at all. -/
def processTrack (f : Found) : List (String × Nat) × Except TErr TRecord :=
  signaturesT.foldl
    (fun acc ts =>
      match acc with
      | (ws, .error e) => (ws, .error e)
      | (ws, .ok tr) =>
        let result := findMatches f ts.2
        let ws2 := ws ++ (if result.length != 1 then [(ts.1, result.length)] else [])
        match result with
        | [] => (ws2, .error .indexError)
        | r0 :: _ =>
          (ws2, .ok (tr ++
            [(ts.1, pyStrOpt (nodeString (.elem r0.tag.name r0.tag.attrs r0.kids)))])))
    ([], .ok [])

/-- Embedding of `TrackListScraper.feed`: find every `div` whose class
starts with `main-item`, and extract one record per such track tag; the
first and second components collect the printed diagnostics and the
overall outcome (an uncaught IndexError aborts the call). -/
def feedT (doc : WB.HForest) : List (String × Nat) × Except TErr (List TRecord) :=
  ((descendsF [docTag] doc).filter
      (fun f => f.tag.name == "div" && classMainItem f.tag.attrs)).foldl
    (fun acc f =>
      match acc with
      | (ws, .error e) => (ws, .error e)
      | (ws, .ok ts) =>
        match processTrack f with
        | (w2, .error e) => (ws ++ w2, .error e)
        | (w2, .ok tr) => (ws ++ w2, .ok (ts ++ [tr])))
    ([], .ok [])

/-- The page loop body of `scrape_week_tracks`: visit pages in order and
stop after the first page for which `scrape` reports no new tracks (the
break of `if not scraper.scrape(...)`); the stopping page was still
fetched. -/
def loopPages : List Nat → (Nat → Bool) → List Nat
  | [], _ => []
  | i :: rest, y => if y i then i :: loopPages rest y else [i]

/-- The page numbers `range(1, 10)` iterates over. -/
def pageRange : List Nat := [1, 2, 3, 4, 5, 6, 7, 8, 9]

/-- Embedding of the pagination of `scrape_week_tracks`, abstracted over
the per-page outcome: `y i` is whether fetching page `i` added new tracks
(the return value of `scraper.scrape` for page `i`).  The result is the
list of pages fetched. -/
def scrape_week_pages (y : Nat → Bool) : List Nat :=
  loopPages pageRange y

end TS

namespace Spec

/-- Modelled from the claim wording for C1: consume the earlier signature
steps right-to-left, walking outward through the ancestors and skipping
non-matching ancestors, failing only when the path is exhausted before
every step is consumed. -/
def skipConsume : List WB.FrameW → List WB.StepW → Bool
  | _, [] => true
  | [], _ :: _ => false
  | f :: fs, st :: sts =>
    if WB.sigStepMatch f st then skipConsume fs sts
    else skipConsume fs (st :: sts)

/-- Modelled from the claim wording for C1: the last step must match the
innermost element, and each earlier step, right-to-left, must match some
ancestor found walking outward, skipping non-matching ancestors.  The path
is outermost first, as the stream parser keeps it. -/
def claimSkipMatch (path : List WB.FrameW) (sig : List WB.StepW) : Bool :=
  match path.reverse, sig.reverse with
  | _, [] => true
  | [], _ :: _ => false
  | f :: fs, st :: sts => WB.sigStepMatch f st && skipConsume fs sts

/-- Modelled from the claim wording for C2: name equality plus, per
required attribute, presence and either exact string equality or token-set
containment (every constraint token among the whitespace-split attribute
value). -/
def claimTokenKeyMatch (tag : TS.BTag) (key : TS.SigKey) : Bool :=
  tag.name == key.1 &&
    key.2.all (fun av =>
      match WB.pyGet tag.attrs av.1 with
      | none => false
      | some raw =>
        match av.2 with
        | .str s => raw == s
        | .list toks => toks.all (fun t => (WB.pySplit raw).contains t))

end Spec

/-- A marker block containing no location matching the title signature. -/
def docNoTitle : WB.HForest :=
  .cons (.elem "div" [("class", "main-item"), ("id", "t1")]
    (.cons (.text "x") .nil)) .nil

/-- The contents of a marker block holding two title-signature matches,
with texts First and Second in document order. -/
def kidsTwoTitles : WB.HForest :=
  .cons (.elem "div" [("class", "item-subject")]
    (.cons (.elem "h3" []
      (.cons (.elem "a" [] (.cons (.text "First") .nil)) .nil)) .nil))
  (.cons (.elem "div" [("class", "item-subject")]
    (.cons (.elem "h3" []
      (.cons (.elem "a" [] (.cons (.text "Second") .nil)) .nil)) .nil))
  .nil)

/-- A document with one marker block holding two title matches. -/
def docTwoTitles : WB.HForest :=
  .cons (.elem "div" [("class", "main-item"), ("id", "t1")] kidsTwoTitles) .nil

/-- The track tag of `docTwoTitles` as `find_all` reports it. -/
def foundTrackTwoTitles : TS.Found :=
  ⟨⟨"div", [("class", "main-item"), ("id", "t1")]⟩, kidsTwoTitles,
   [TS.docTag]⟩

/-- The first title match inside `docTwoTitles`. -/
def foundFirstTitle : TS.Found :=
  ⟨⟨"a", []⟩, .cons (.text "First") .nil,
   [⟨"h3", []⟩, ⟨"div", [("class", "item-subject")]⟩,
    ⟨"div", [("class", "main-item"), ("id", "t1")]⟩, TS.docTag]⟩

/-- The second title match inside `docTwoTitles`. -/
def foundSecondTitle : TS.Found :=
  ⟨⟨"a", []⟩, .cons (.text "Second") .nil,
   [⟨"h3", []⟩, ⟨"div", [("class", "item-subject")]⟩,
    ⟨"div", [("class", "main-item"), ("id", "t1")]⟩, TS.docTag]⟩

/-- A document consisting of one marker block around a text node. -/
def forestOneMarker : WB.HForest :=
  .cons (.elem "div" [("class", "main-item"), ("id", "t1")]
    (.cons (.text "hi") .nil)) .nil

namespace WB

theorem runP_nil (s : PState) : runP [] s = .ok s := rfl

theorem runP_cons (e : Event) (evs : List Event) (s : PState) :
    runP (e :: evs) s = (stepP s e).bind (runP evs) := by
  cases h : stepP s e <;>
    simp [runP, List.foldlM, h, Except.bind, Bind.bind]

theorem runP_append (l1 l2 : List Event) (s : PState) :
    runP (l1 ++ l2) s = (runP l1 s).bind (runP l2) := by
  induction l1 generalizing s with
  | nil => simp [runP_nil, Except.bind]
  | cons e rest ih =>
    rw [List.cons_append, runP_cons, runP_cons]
    cases stepP s e with
    | ok s1 => simp [Except.bind, ih]
    | error err => rfl

theorem rget_rset_same (r : Record) (k : String) (v : Value) :
    rget (rset r k v) k = some v := by
  simp [rget, rset, List.filter_append]

theorem rget_rset_other (r : Record) (k k2 : String) (v : Value)
    (h : k ≠ k2) : rget (rset r k v) k2 = rget r k2 := by
  simp [rget, rset, List.filter_append, h]

theorem foldl_dataStep_keeps_id (path : List FrameW) (d : String) :
    ∀ (things : List (String × List StepW)) (item it2 : Record),
    (∀ tc ∈ things, tc.1 ≠ "id") →
    things.foldlM (dataStep path d) item = .ok it2 →
    rget it2 "id" = rget item "id" := by
  intro things
  induction things with
  | nil =>
    intro item it2 _ hrun
    simp only [List.foldlM] at hrun
    cases hrun
    rfl
  | cons tc rest ih =>
    intro item it2 hni hrun
    simp only [List.foldlM] at hrun
    cases hstep : dataStep path d item tc with
    | error e => rw [hstep] at hrun; exact absurd hrun (by simp [Bind.bind, Except.bind])
    | ok it1 =>
      rw [hstep] at hrun
      simp only [Bind.bind, Except.bind] at hrun
      have h1 : rget it1 "id" = rget item "id" := by
        unfold dataStep at hstep
        by_cases hm : sigMatchStream path tc.2 = true
        · rw [if_pos hm] at hstep
          cases hcv : convertW tc.1 d with
          | none => rw [hcv] at hstep; cases hstep
          | some v =>
            rw [hcv] at hstep
            cases hstep
            exact rget_rset_other item tc.1 "id" v (hni tc (by simp))
        · rw [if_neg hm] at hstep
          cases hstep
          rfl
      have h2 := ih it1 it2 (fun x hx => hni x (by simp [hx])) hrun
      rw [h2, h1]

theorem handleData_closed (s : PState) (d : String)
    (h : s.listitem = none) : handleData s d = .ok s := by
  simp [handleData, h]

theorem handleData_open (s : PState) (d : String) (s2 : PState) (r : Record)
    (h : s.listitem = some r) (hrun : handleData s d = .ok s2) :
    s2.opentags = s.opentags ∧ s2.itemdepth = s.itemdepth ∧
    s2.tracks = s.tracks ∧
    ∃ r2, s2.listitem = some r2 ∧ rget r2 "id" = rget r "id" := by
  unfold handleData at hrun
  rw [h] at hrun
  dsimp only at hrun
  cases hfold : signaturesW.foldlM (dataStep s.opentags d) r with
  | error e => rw [hfold] at hrun; cases hrun
  | ok it =>
    rw [hfold] at hrun
    simp only [Except.map] at hrun
    cases hrun
    refine ⟨rfl, rfl, rfl, it, rfl, ?_⟩
    exact foldl_dataStep_keeps_id s.opentags d signaturesW r it (by decide) hfold

theorem stepP_start_input (s : PState) (a : List (String × String)) :
    stepP s (.starttag "input" a) = .ok s := by
  simp [stepP]

theorem stepP_end_input (s : PState) :
    stepP s (.endtag "input") = .ok s := by
  simp [stepP]

theorem stepP_start_nonmarker (s : PState) (t : String)
    (a : List (String × String)) (hti : (t == "input") = false)
    (hmk : (t == "div" && markerClass a) = false) :
    stepP s (.starttag t a) =
      .ok { s with opentags := s.opentags ++ [(t, a)] } := by
  simp [stepP, hti, hmk]

theorem stepP_start_marker_open (s : PState) (t : String)
    (a : List (String × String)) (r : Record)
    (hmk : (t == "div" && markerClass a) = true)
    (hli : s.listitem = some r) :
    stepP s (.starttag t a) = .error .unclosedItem := by
  have ht : t = "div" := by
    have := (Bool.and_eq_true _ _).mp hmk
    exact eq_of_beq this.1
  subst ht
  have hmc : markerClass a = true := ((Bool.and_eq_true _ _).mp hmk).2
  simp [stepP, hmc, hli]

theorem stepP_start_marker_new (s : PState) (t : String)
    (a : List (String × String)) (v : String)
    (hmk : (t == "div" && markerClass a) = true)
    (hli : s.listitem = none) (hid : pyGet a "id" = some v) :
    stepP s (.starttag t a) =
      .ok ⟨s.opentags ++ [(t, a)], some [("id", Value.str v)],
           s.opentags.length + 1, s.tracks⟩ := by
  have ht : t = "div" := by
    have := (Bool.and_eq_true _ _).mp hmk
    exact eq_of_beq this.1
  subst ht
  have hmc : markerClass a = true := ((Bool.and_eq_true _ _).mp hmk).2
  simp [stepP, hmc, hli, hid]

theorem stepP_end_noseal (s : PState) (t : String) (top : FrameW)
    (hti : (t == "input") = false) (hlast : s.opentags.getLast? = some top)
    (hname : top.1 = t)
    (hd : ¬ s.opentags.dropLast.length < s.itemdepth) :
    stepP s (.endtag t) = .ok { s with opentags := s.opentags.dropLast } := by
  rw [List.length_dropLast] at hd
  simp [stepP, hti, hlast, hname, hd]

theorem stepP_end_mismatch (s : PState) (t : String)
    (hti : (t == "input") = false)
    (hcond : (s.opentags.getLast?).map (fun p => p.1) ≠ some t) :
    stepP s (.endtag t) = .error .mismatchTag := by
  cases hlast : s.opentags.getLast? with
  | none => simp [stepP, hti, hlast]
  | some top =>
    rw [hlast, Option.map_some'] at hcond
    have hb2 : (t == top.1) = false := by
      cases hb : (t == top.1)
      · rfl
      · exact absurd (by rw [eq_of_beq hb]) hcond
    simp [stepP, hti, hlast, hb2, bne]

theorem stepP_end_seal (s : PState) (t : String) (top : FrameW)
    (hti : (t == "input") = false) (hlast : s.opentags.getLast? = some top)
    (hname : top.1 = t)
    (hd : s.opentags.dropLast.length < s.itemdepth) :
    stepP s (.endtag t) =
      .ok ⟨s.opentags.dropLast, none, 0, s.tracks ++ [s.listitem]⟩ := by
  rw [List.length_dropLast] at hd
  simp [stepP, hti, hlast, hname, hd]

theorem bindErr {α β γ : Type} {e : γ} {f : α → Except γ β} {b : β}
    (h : (Except.error e).bind f = .ok b) : False := by
  simp [Except.bind] at h

theorem bindOk {α β γ : Type} {a : α} {f : α → Except γ β} :
    (Except.ok a).bind f = f a := rfl

theorem stepP_data (s : PState) (d : String) :
    stepP s (.data d) = handleData s d := rfl

/-- Invariant of a run over a well-nested forest while a record is open:
the stack, depth mark and sealed output are restored, the forest can have
contained no marker (a marker start would have raised), and the record
stays open with its id field unchanged. -/
theorem runOpenF (ns : HForest) :
    ∀ (s : PState) (r : Record) (s2 : PState),
    s.listitem = some r → s.itemdepth ≤ s.opentags.length →
    runP (flattenF ns) s = .ok s2 →
    s2.opentags = s.opentags ∧ s2.itemdepth = s.itemdepth ∧
    s2.tracks = s.tracks ∧ markerIdsF ns = [] ∧
    ∃ r2, s2.listitem = some r2 ∧ rget r2 "id" = rget r "id" := by
  cases ns with
  | nil =>
    intro s r s2 hli _ hrun
    rw [show flattenF .nil = [] from rfl, runP_nil] at hrun
    cases hrun
    exact ⟨rfl, rfl, rfl, rfl, r, hli, rfl⟩
  | cons n rest =>
    cases n with
    | text d =>
      intro s r s2 hli hdep hrun
      rw [show flattenF (.cons (.text d) rest) = .data d :: flattenF rest
            from rfl, runP_cons] at hrun
      cases hstep : stepP s (.data d) with
      | error e => rw [hstep] at hrun; exact (bindErr hrun).elim
      | ok s1 =>
        rw [hstep, bindOk] at hrun
        rw [stepP_data] at hstep
        obtain ⟨ho, hi, ht, r1, hli1, hid1⟩ := handleData_open s d s1 r hli hstep
        obtain ⟨o2, i2, t2, m2, r2, l2, id2⟩ :=
          runOpenF rest s1 r1 s2 hli1 (by rw [hi, ho]; exact hdep) hrun
        refine ⟨by rw [o2, ho], by rw [i2, hi], by rw [t2, ht], ?_,
          r2, l2, by rw [id2, hid1]⟩
        simpa only [markerIdsF] using m2
    | elem t a cs =>
      intro s r s2 hli hdep hrun
      rw [show flattenF (.cons (.elem t a cs) rest) =
            .starttag t a :: (flattenF cs ++ .endtag t :: flattenF rest)
            from rfl, runP_cons] at hrun
      by_cases hti : t = "input"
      · subst hti
        rw [stepP_start_input, bindOk, runP_append] at hrun
        cases hcs : runP (flattenF cs) s with
        | error e => rw [hcs] at hrun; exact (bindErr hrun).elim
        | ok s1 =>
          rw [hcs, bindOk, runP_cons, stepP_end_input, bindOk] at hrun
          obtain ⟨o1, i1, t1, m1, r1, l1, id1⟩ := runOpenF cs s r s1 hli hdep hcs
          obtain ⟨o2, i2, t2, m2, r2, l2, id2⟩ :=
            runOpenF rest s1 r1 s2 l1 (by rw [i1, o1]; exact hdep) hrun
          refine ⟨by rw [o2, o1], by rw [i2, i1], by rw [t2, t1], ?_,
            r2, l2, by rw [id2, id1]⟩
          simp only [markerIdsF, m1, m2]
          simp
      · have hti2 : (t == "input") = false := by
          simp only [beq_eq_false_iff_ne, ne_eq]; exact hti
        cases hmk : (t == "div" && markerClass a) with
        | true =>
          rw [stepP_start_marker_open s t a r hmk hli] at hrun
          exact (bindErr hrun).elim
        | false =>
          rw [stepP_start_nonmarker s t a hti2 hmk, bindOk, runP_append] at hrun
          cases hcs : runP (flattenF cs)
              { s with opentags := s.opentags ++ [(t, a)] } with
          | error e => rw [hcs] at hrun; exact (bindErr hrun).elim
          | ok sc =>
            rw [hcs, bindOk, runP_cons] at hrun
            have hdep1 : ({ s with opentags := s.opentags ++ [(t, a)]}
                : PState).itemdepth ≤
                ({ s with opentags := s.opentags ++ [(t, a)]}
                : PState).opentags.length := by
              simp only [List.length_append, List.length_cons]
              omega
            obtain ⟨o1, i1, t1, m1, r1, l1, id1⟩ :=
              runOpenF cs { s with opentags := s.opentags ++ [(t, a)] } r sc
                hli hdep1 hcs
            have hlast : sc.opentags.getLast? = some (t, a) := by
              rw [o1]; exact List.getLast?_concat _
            have hnoseal : ¬ sc.opentags.dropLast.length < sc.itemdepth := by
              rw [o1, i1]
              simp only [List.dropLast_concat]
              exact Nat.not_lt.mpr hdep
            rw [stepP_end_noseal sc t (t, a) hti2 hlast rfl hnoseal, bindOk]
              at hrun
            have ho3 : ({ sc with opentags := sc.opentags.dropLast }
                : PState).opentags = s.opentags := by
              simp only [o1, List.dropLast_concat]
            obtain ⟨o2, i2, t2, m2, r2, l2, id2⟩ :=
              runOpenF rest { sc with opentags := sc.opentags.dropLast } r1 s2
                (by simpa using l1)
                (by show sc.itemdepth ≤ sc.opentags.dropLast.length
                    rw [i1, o1]
                    simp only [List.dropLast_concat]
                    exact hdep) hrun
            refine ⟨by rw [o2, ho3], by rw [i2]; simpa using i1,
              by rw [t2]; simpa using t1, ?_, r2, l2, by rw [id2, id1]⟩
            simp only [markerIdsF, hmk, m1, m2]
            simp
termination_by sizeOf ns

/-- Invariant of a run over a well-nested forest while no record is open:
the stack is restored, no record is left open, and the sealed output grows
by exactly one record per marker element, in document order, each carrying
the id attribute of its marker. -/
theorem runClosedF (ns : HForest) :
    ∀ (s : PState) (s2 : PState),
    s.listitem = none → s.itemdepth = 0 →
    runP (flattenF ns) s = .ok s2 →
    s2.opentags = s.opentags ∧ s2.listitem = none ∧ s2.itemdepth = 0 ∧
    s2.tracks.map trackId = s.tracks.map trackId ++
      (markerIdsF ns).map (fun v => some (Value.str v)) := by
  cases ns with
  | nil =>
    intro s s2 hli hd533 hrun
    rw [show flattenF .nil = [] from rfl, runP_nil] at hrun
    cases hrun
    simp [markerIdsF, hli, hd533]
  | cons n rest =>
    cases n with
    | text d =>
      intro s s2 hli hid0 hrun
      rw [show flattenF (.cons (.text d) rest) = .data d :: flattenF rest
            from rfl, runP_cons, stepP_data, handleData_closed s d hli,
          bindOk] at hrun
      obtain ⟨o2, l2, i2, t2⟩ := runClosedF rest s s2 hli hid0 hrun
      exact ⟨o2, l2, i2, by simpa only [markerIdsF] using t2⟩
    | elem t a cs =>
      intro s s2 hli hid0 hrun
      rw [show flattenF (.cons (.elem t a cs) rest) =
            .starttag t a :: (flattenF cs ++ .endtag t :: flattenF rest)
            from rfl, runP_cons] at hrun
      by_cases hti : t = "input"
      · subst hti
        rw [stepP_start_input, bindOk, runP_append] at hrun
        cases hcs : runP (flattenF cs) s with
        | error e => rw [hcs] at hrun; exact (bindErr hrun).elim
        | ok s1 =>
          rw [hcs, bindOk, runP_cons, stepP_end_input, bindOk] at hrun
          obtain ⟨o1, l1, i1, t1⟩ := runClosedF cs s s1 hli hid0 hcs
          obtain ⟨o2, l2, i2, t2⟩ := runClosedF rest s1 s2 l1 i1 hrun
          refine ⟨by rw [o2, o1], l2, i2, ?_⟩
          rw [t2, t1]
          simp [markerIdsF]
      · have hti2 : (t == "input") = false := by
          simp only [beq_eq_false_iff_ne, ne_eq]; exact hti
        cases hmk : (t == "div" && markerClass a) with
        | false =>
          rw [stepP_start_nonmarker s t a hti2 hmk, bindOk, runP_append]
            at hrun
          cases hcs : runP (flattenF cs)
              { s with opentags := s.opentags ++ [(t, a)] } with
          | error e => rw [hcs] at hrun; exact (bindErr hrun).elim
          | ok sc =>
            rw [hcs, bindOk, runP_cons] at hrun
            obtain ⟨o1, l1, i1, t1⟩ :=
              runClosedF cs { s with opentags := s.opentags ++ [(t, a)] } sc
                (by simpa using hli) (by simpa using hid0) hcs
            have hlast : sc.opentags.getLast? = some (t, a) := by
              rw [o1]; exact List.getLast?_concat _
            have hnoseal : ¬ sc.opentags.dropLast.length < sc.itemdepth := by
              rw [i1]; exact Nat.not_lt_zero _
            rw [stepP_end_noseal sc t (t, a) hti2 hlast rfl hnoseal, bindOk]
              at hrun
            obtain ⟨o2, l2, i2, t2⟩ :=
              runClosedF rest { sc with opentags := sc.opentags.dropLast } s2
                (by simpa using l1) (by simpa using i1) hrun
            refine ⟨by rw [o2]; simp only [o1, List.dropLast_concat], l2, i2, ?_⟩
            rw [t2]
            simp only [markerIdsF, hmk]
            rw [show ({ sc with opentags := sc.opentags.dropLast }
                  : PState).tracks = sc.tracks from rfl, t1]
            simp
        | true =>
          cases hid : pyGet a "id" with
          | none =>
            have ht : t = "div" := by
              have := (Bool.and_eq_true _ _).mp hmk
              exact eq_of_beq this.1
            subst ht
            have hmc : markerClass a = true :=
              ((Bool.and_eq_true _ _).mp hmk).2
            rw [show stepP s (.starttag "div" a) = .error .missingKey by
                  simp [stepP, hmc, hli, hid]] at hrun
            exact (bindErr hrun).elim
          | some v =>
            rw [stepP_start_marker_new s t a v hmk hli hid, bindOk,
                runP_append] at hrun
            cases hcs : runP (flattenF cs)
                ⟨s.opentags ++ [(t, a)], some [("id", Value.str v)],
                 s.opentags.length + 1, s.tracks⟩ with
            | error e => rw [hcs] at hrun; exact (bindErr hrun).elim
            | ok sc =>
              rw [hcs, bindOk, runP_cons] at hrun
              obtain ⟨o1, i1, t1, m1, r1, l1, id1⟩ :=
                runOpenF cs
                  ⟨s.opentags ++ [(t, a)], some [("id", Value.str v)],
                   s.opentags.length + 1, s.tracks⟩ [("id", Value.str v)] sc
                  rfl (by simp) hcs
              have hlast : sc.opentags.getLast? = some (t, a) := by
                rw [o1]; exact List.getLast?_concat _
              have hseal : sc.opentags.dropLast.length < sc.itemdepth := by
                rw [o1, i1]
                simp only [List.dropLast_concat]
                exact Nat.lt_succ_self _
              rw [stepP_end_seal sc t (t, a) hti2 hlast rfl hseal, bindOk]
                at hrun
              obtain ⟨o2, l2, i2, t2⟩ :=
                runClosedF rest
                  ⟨sc.opentags.dropLast, none, 0, sc.tracks ++ [sc.listitem]⟩
                  s2 rfl rfl hrun
              refine ⟨by rw [o2]; simp only [o1, List.dropLast_concat], l2, i2, ?_⟩
              rw [t2]
              have hidv : trackId sc.listitem = some (Value.str v) := by
                rw [l1]
                simpa [trackId, rget] using id1
              simp [markerIdsF, hmk, hid, m1, hidv, t1]
termination_by sizeOf ns

end WB

theorem all_zip_iff_forall2 {α β : Type} (p : α → β → Bool) :
    ∀ (l1 : List α) (l2 : List β), l1.length = l2.length →
    (((l1.zip l2).all (fun ab => p ab.1 ab.2)) = true ↔
      List.Forall₂ (fun a b => p a b = true) l1 l2) := by
  intro l1
  induction l1 with
  | nil =>
    intro l2 h
    cases l2 with
    | nil => simp
    | cons b l2 => simp at h
  | cons a l1 ih =>
    intro l2 h
    cases l2 with
    | nil => simp at h
    | cons b l2 =>
      simp only [List.zip_cons_cons, List.all_cons, List.forall₂_cons,
        Bool.and_eq_true]
      rw [ih l2 (by simpa using h)]

theorem zip_trunc_both {α β : Type} :
    ∀ (l1 : List α) (l2 : List β),
    l1.zip l2 = (l1.take l2.length).zip (l2.take l1.length) := by
  intro l1
  induction l1 with
  | nil => intro l2; simp
  | cons a l1 ih =>
    intro l2
    cases l2 with
    | nil => simp
    | cons b l2 =>
      simp only [List.zip_cons_cons, List.length_cons, List.take_succ_cons]
      rw [ih l2]

theorem takeWhile_length_le {α : Type} (p : α → Bool) :
    ∀ l : List α, (l.takeWhile p).length ≤ l.length := by
  intro l
  induction l with
  | nil => simp
  | cons a l ih =>
    rw [List.takeWhile_cons]
    cases p a
    · simp
    · simpa using Nat.succ_le_succ ih

theorem loopPages_eq (y : Nat → Bool) :
    ∀ l : List Nat,
    TS.loopPages l y = l.takeWhile y ++ (l.drop (l.takeWhile y).length).take 1 := by
  intro l
  induction l with
  | nil => rfl
  | cons i rest ih =>
    by_cases hy : y i = true
    · simp only [TS.loopPages, hy, if_true, List.takeWhile_cons, hy,
        List.length_cons, List.drop_succ_cons]
      rw [ih]
      simp
    · have hy2 : y i = false := by
        cases hyv : y i
        · rfl
        · exact absurd hyv hy
      simp [TS.loopPages, hy2, List.takeWhile_cons, List.take]

theorem mem_dictKeys_aux (w : Int) :
    ∀ (l : List WB.WEntry) (acc : List Int),
    (w ∈ l.foldl
        (fun acc e => if e.week ∈ acc then acc else acc ++ [e.week]) acc ↔
      w ∈ acc ∨ w ∈ l.map (fun e => e.week)) := by
  intro l
  induction l with
  | nil => intro acc; simp
  | cons e l ih =>
    intro acc
    simp only [List.foldl_cons, List.map_cons, List.mem_cons]
    by_cases he : e.week ∈ acc
    · rw [if_pos he, ih acc]
      constructor
      · rintro (h | h)
        · exact Or.inl h
        · exact Or.inr (Or.inr h)
      · rintro (h | h | h)
        · exact Or.inl h
        · rw [h]; exact Or.inl he
        · exact Or.inr h
    · rw [if_neg he, ih (acc ++ [e.week])]
      simp only [List.mem_append, List.mem_singleton]
      tauto

theorem mem_dictKeys (w : Int) (l : List WB.WEntry) :
    w ∈ WB.dictKeys l ↔ w ∈ l.map (fun e => e.week) := by
  have := mem_dictKeys_aux w l []
  simpa [WB.dictKeys] using this

theorem weekIndexed_nodup (l : List WB.WEntry) (w : Int) (t : WB.WEntry)
    (h : (l.map (fun e => e.week)).Nodup) :
    WB.weekIndexed l w = some t ↔ t ∈ l ∧ t.week = w := by
  induction l with
  | nil => simp [WB.weekIndexed]
  | cons e l ih =>
    simp only [List.map_cons, List.nodup_cons] at h
    obtain ⟨hnin, hnd⟩ := h
    by_cases hw : e.week = w
    · have hfl : l.filter (fun x => x.week == w) = [] := by
        rw [List.filter_eq_nil_iff]
        intro x hx hbeq
        apply hnin
        rw [hw, ← eq_of_beq hbeq]
        exact List.mem_map_of_mem _ hx
      simp only [WB.weekIndexed, List.filter_cons]
      rw [if_pos (by simp [hw]), hfl]
      simp only [List.getLast?_singleton, Option.some_inj]
      constructor
      · rintro rfl
        exact ⟨List.mem_cons_self _ _, hw⟩
      · rintro ⟨hmem, hwt⟩
        rcases List.mem_cons.mp hmem with rfl | hmem2
        · rfl
        · exfalso
          apply hnin
          rw [hw, ← hwt]
          exact List.mem_map_of_mem _ hmem2
    · have hstep : WB.weekIndexed (e :: l) w = WB.weekIndexed l w := by
        simp only [WB.weekIndexed, List.filter_cons]
        rw [if_neg (by simp [hw])]
      rw [hstep, ih hnd]
      constructor
      · rintro ⟨hmem, hwt⟩
        exact ⟨List.mem_cons_of_mem _ hmem, hwt⟩
      · rintro ⟨hmem, hwt⟩
        rcases List.mem_cons.mp hmem with rfl | hmem2
        · exact absurd hwt hw
        · exact ⟨hmem2, hwt⟩

theorem handleData_title (s : WB.PState) (r : WB.Record) (d : String)
    (hli : s.listitem = some r)
    (h1 : WB.sigMatchStream s.opentags WB.sigTitleW = true)
    (h2 : WB.sigMatchStream s.opentags WB.sigWeekW = false)
    (h3 : WB.sigMatchStream s.opentags WB.sigCommentsW = false) :
    WB.handleData s d =
      .ok { s with listitem := some (WB.rset r "title" (WB.Value.str d)) } := by
  unfold WB.handleData
  rw [hli]
  dsimp only
  simp [WB.signaturesW, List.foldlM, WB.dataStep, h1, h2, h3, WB.convertW,
    Bind.bind, Except.bind, Except.map, pure, Except.pure]

theorem runDataLast :
    ∀ (ds : List String) (d0 : String) (s : WB.PState) (r : WB.Record),
    s.listitem = some r →
    WB.sigMatchStream s.opentags WB.sigTitleW = true →
    WB.sigMatchStream s.opentags WB.sigWeekW = false →
    WB.sigMatchStream s.opentags WB.sigCommentsW = false →
    ∃ r2, WB.runP ((d0 :: ds).map .data) s =
        .ok { s with listitem := some r2 } ∧
      WB.rget r2 "title" = some (WB.Value.str (ds.getLastD d0)) := by
  intro ds
  induction ds with
  | nil =>
    intro d0 s r hli h1 h2 h3
    refine ⟨WB.rset r "title" (WB.Value.str d0), ?_, ?_⟩
    · rw [show ([d0].map WB.Event.data) = [WB.Event.data d0] from rfl,
        WB.runP_cons, WB.stepP_data, handleData_title s r d0 hli h1 h2 h3,
        WB.bindOk, WB.runP_nil]
    · simp [WB.rget_rset_same]
  | cons d1 ds ih =>
    intro d0 s r hli h1 h2 h3
    have hstep := handleData_title s r d0 hli h1 h2 h3
    obtain ⟨r2, hrun2, hget2⟩ := ih d1
      { s with listitem := some (WB.rset r "title" (WB.Value.str d0)) }
      (WB.rset r "title" (WB.Value.str d0)) rfl h1 h2 h3
    refine ⟨r2, ?_, by rw [List.getLastD_cons]; exact hget2⟩
    rw [show ((d0 :: d1 :: ds).map WB.Event.data) =
          WB.Event.data d0 :: (d1 :: ds).map WB.Event.data from rfl,
      WB.runP_cons, WB.stepP_data, hstep, WB.bindOk, hrun2]

theorem processTrack_first (f : TS.Found) (r0 : TS.Found)
    (rest : List TS.Found) (h : TS.findMatches f TS.sigTitleT = r0 :: rest) :
    TS.processTrack f =
      ((if (r0 :: rest).length != 1 then [("title", (r0 :: rest).length)]
        else []),
       .ok [("title",
         TS.pyStrOpt (TS.nodeString (.elem r0.tag.name r0.tag.attrs r0.kids)))]) := by
  unfold TS.processTrack
  simp only [TS.signaturesT, List.foldl]
  rw [h]
  rfl

/-- C5: evaluation of the tree scraper at the failing input.  On a record
(`main-item` block) within which the title signature matches zero
locations, `feed` surfaces the cardinality diagnostic (field `title`,
count 0) and then raises IndexError at `result[0]`: the parse aborts
rather than leaving the field absent and continuing, so a zero-match field
is fatal in this code. -/
theorem c5_zero_match_is_fatal :
    TS.feedT docNoTitle = ([("title", 0)], .error .indexError) := by decide

/-- C6 counterexample: with every page yielding new records, the loop of
`scrape_week_tracks` still stops after page 9 (`range(1, 10)`), a fixed
page cap: page 10 is never fetched although no fetched page yielded zero
new records, refuting that iteration stops exactly on a zero-yield page. -/
theorem c6_counterexample :
    TS.scrape_week_pages (fun _ => true) = [1, 2, 3, 4, 5, 6, 7, 8, 9] ∧
    10 ∉ TS.scrape_week_pages (fun _ => true) := by decide

/-- C6 amended: page iteration fetches pages sequentially starting from
page 1 and stops after the first page yielding zero new records or after
the fixed cap of 9 pages (`range(1, 10)`), whichever comes first; at most
9 pages are ever fetched. -/
theorem c6_amended (y : Nat → Bool) :
    TS.scrape_week_pages y =
      TS.pageRange.takeWhile y ++
        (TS.pageRange.drop (TS.pageRange.takeWhile y).length).take 1 ∧
    (TS.scrape_week_pages y).length ≤ 9 := by
  refine ⟨loopPages_eq y TS.pageRange, ?_⟩
  show (TS.loopPages TS.pageRange y).length ≤ 9
  rw [loopPages_eq y TS.pageRange, List.length_append, List.length_take,
    List.length_drop]
  have h1 : (TS.pageRange.takeWhile y).length ≤ 9 := by
    simpa using takeWhile_length_le y TS.pageRange
  have h2 : TS.pageRange.length = 9 := rfl
  omega

/-- C7: whenever a marker element (a `div` whose class attribute starts
with `main-item`) opens while a record is already in progress, the stream
parser raises the unclosed-item structural error, so at most one record is
ever in progress and records are never merged or nested. -/
theorem c7_nested_marker_raises (s : WB.PState) (r : WB.Record)
    (a : List (String × String)) (hli : s.listitem = some r)
    (hm : WB.markerClass a = true) :
    WB.stepP s (.starttag "div" a) = .error .unclosedItem :=
  WB.stepP_start_marker_open s "div" a r (by simp [hm]) hli

/-- C7 witness: the theorem applied to a concrete open-record state and a
concrete second marker element. -/
theorem c7_witness :
    WB.stepP ⟨[("div", [("class", "main-item"), ("id", "a1")])],
        some [("id", WB.Value.str "a1")], 1, []⟩
      (.starttag "div" [("class", "main-item b"), ("id", "a2")]) =
      .error .unclosedItem :=
  c7_nested_marker_raises _ [("id", WB.Value.str "a1")] _ rfl (by decide)

/-- C8 counterexample: a close event for the ignored tag `input` whose
name differs from the innermost open element (`div`) raises no error and
pops nothing, refuting the claim that every mismatching close event
raises a structural error. -/
theorem c8_counterexample :
    WB.runP [.starttag "div" [], .endtag "input"] WB.initP =
      .ok ⟨[("div", [])], none, 0, []⟩ ∧ "input" ≠ "div" := by decide

/-- C8 amended: for a close event whose tag is not in the ignore list
(`input`), the parser raises the mismatch error exactly when no element is
open or the tag differs from the innermost open element, and otherwise
pops the innermost frame; a close event for an ignored tag is a no-op. -/
theorem c8_amended (s : WB.PState) (tag : String) (h : tag ≠ "input") :
    (WB.stepP s (.endtag tag) = .error .mismatchTag ↔
      (s.opentags.getLast?).map (fun p => p.1) ≠ some tag) ∧
    (∀ s2, WB.stepP s (.endtag tag) = .ok s2 →
      s2.opentags = s.opentags.dropLast) ∧
    WB.stepP s (.endtag "input") = .ok s := by
  have hti : (tag == "input") = false := by simp [h]
  refine ⟨⟨?_, WB.stepP_end_mismatch s tag hti⟩, ?_, WB.stepP_end_input s⟩
  · intro herr hc
    cases hlast : s.opentags.getLast? with
    | none => rw [hlast] at hc; simp at hc
    | some top =>
      rw [hlast, Option.map_some'] at hc
      have htop : top.1 = tag := Option.some_inj.mp hc
      by_cases hd : s.opentags.dropLast.length < s.itemdepth
      · rw [WB.stepP_end_seal s tag top hti hlast htop hd] at herr
        cases herr
      · rw [WB.stepP_end_noseal s tag top hti hlast htop hd] at herr
        cases herr
  · intro s2 hok
    cases hlast : s.opentags.getLast? with
    | none =>
      rw [WB.stepP_end_mismatch s tag hti (by rw [hlast]; simp)] at hok
      cases hok
    | some top =>
      by_cases hbe : top.1 = tag
      · by_cases hd : s.opentags.dropLast.length < s.itemdepth
        · rw [WB.stepP_end_seal s tag top hti hlast hbe hd] at hok
          cases hok
          rfl
        · rw [WB.stepP_end_noseal s tag top hti hlast hbe hd] at hok
          cases hok
          rfl
      · rw [WB.stepP_end_mismatch s tag hti
            (by rw [hlast, Option.map_some']; simp [hbe])] at hok
        cases hok

/-- C8 witness: the amended theorem applied at a concrete state where the
close tag does not match the innermost open element. -/
theorem c8_witness :
    WB.stepP ⟨[("div", [])], none, 0, []⟩ (.endtag "span") =
      .error .mismatchTag :=
  ((c8_amended ⟨[("div", [])], none, 0, []⟩ "span" (by decide)).1).mpr
    (by decide)

/-- C10: for track and record lists whose week keys are duplicate-free,
`check_new_comments` reports exactly the weeks present in both lists whose
comment counts differ, mapped to current minus recorded; weeks absent from
the saved record are never reported.  The embedding is a pure function, so
neither input is modified. -/
theorem c10_check_new_comments (tracks record : List WB.WEntry)
    (h1 : (tracks.map (fun e => e.week)).Nodup)
    (h2 : (record.map (fun e => e.week)).Nodup) (w d : Int) :
    (w, d) ∈ WB.check_new_comments tracks record ↔
      ∃ t ∈ tracks, ∃ r ∈ record, t.week = w ∧ r.week = w ∧
        d = t.comments - r.comments ∧ d ≠ 0 := by
  unfold WB.check_new_comments
  rw [List.mem_filterMap]
  constructor
  · rintro ⟨w2, hw2, hg⟩
    cases hr : WB.weekIndexed record w2 with
    | none => rw [hr] at hg; cases hg
    | some r2 =>
      rw [hr] at hg
      dsimp only at hg
      cases ht : WB.weekIndexed tracks w2 with
      | none => rw [ht] at hg; cases hg
      | some t2 =>
        rw [ht] at hg
        dsimp only at hg
        by_cases hne : t2.comments - r2.comments ≠ 0
        · rw [if_pos (by simpa using hne)] at hg
          have hp := Option.some_inj.mp hg
          have hww : w2 = w := congrArg Prod.fst hp
          have hdd : t2.comments - r2.comments = d := congrArg Prod.snd hp
          subst hww
          obtain ⟨htm, htw⟩ := (weekIndexed_nodup tracks w2 t2 h1).mp ht
          obtain ⟨hrm, hrw⟩ := (weekIndexed_nodup record w2 r2 h2).mp hr
          exact ⟨t2, htm, r2, hrm, htw, hrw, hdd.symm,
            by rw [← hdd]; exact hne⟩
        · rw [if_neg (by simpa using hne)] at hg
          cases hg
  · rintro ⟨t, htm, r, hrm, htw, hrw, hd, hdne⟩
    refine ⟨w, ?_, ?_⟩
    · rw [mem_dictKeys, ← htw]
      exact List.mem_map_of_mem _ htm
    · rw [(weekIndexed_nodup record w r h2).mpr ⟨hrm, hrw⟩,
        (weekIndexed_nodup tracks w t h1).mpr ⟨htm, htw⟩]
      dsimp only
      rw [if_pos (by rw [← hd]; simpa using hdne)]
      rw [hd]

/-- C10 witness: the theorem applied to concrete one-entry lists sharing
week 1 with differing comment counts. -/
theorem c10_witness :
    ((1 : Int), (2 : Int)) ∈ WB.check_new_comments [⟨1, 5⟩] [⟨1, 3⟩] :=
  (c10_check_new_comments [⟨1, 5⟩] [⟨1, 3⟩] (by decide) (by decide) 1 2).mpr
    ⟨⟨1, 5⟩, by simp, ⟨1, 3⟩, by simp, rfl, rfl, by decide, by decide⟩

/-- C1 counterexample: on the ancestor path div.item-subject, span, h3, a
with the title signature (div.item-subject, h3, a), the skipping semantics
of the claim reports the signature satisfied (the span ancestor is
skipped), but both implementations report no match: each requires the
steps to match consecutive innermost elements, so the claimed equivalence
fails. -/
theorem c1_counterexample :
    Spec.claimSkipMatch
      [("div", [("class", "item-subject")]), ("span", []), ("h3", []),
       ("a", [])] WB.sigTitleW = true ∧
    WB.sigMatchStream
      [("div", [("class", "item-subject")]), ("span", []), ("h3", []),
       ("a", [])] WB.sigTitleW = false ∧
    TS.signature_match TS.sigTitleT ⟨"a", []⟩
      [⟨"h3", []⟩, ⟨"span", []⟩, ⟨"div", [("class", "item-subject")]⟩,
       TS.docTag] = false := by decide

/-- C1 amended: both matchers test the signature against consecutive
elements with no skipping.  The stream matcher is satisfied iff the
pairwise checks succeed between the innermost stack slots and the steps,
truncated to the shorter side (so with a stack shorter than the signature
only the leading steps are compared); the tree matcher is satisfied iff
the last step matches the element itself and the remaining steps,
right-to-left, match the chain of enclosing ancestors pairwise, truncated
to the shorter side (the document sentinel ends the chain). -/
theorem c1_amended :
    (∀ (path : List WB.FrameW) (sig : List WB.StepW),
      WB.sigMatchStream path sig = true ↔
        List.Forall₂ (fun f st => WB.sigStepMatch f st = true)
          (path.drop (path.length - sig.length)) (sig.take path.length)) ∧
    (∀ (sig : List TS.SigKey) (k : TS.SigKey) (tag : TS.BTag)
        (parents : List TS.BTag),
      sig.getLast? = some k →
      (TS.signature_match sig tag parents = true ↔
        TS.signature_key_match tag k = true ∧
        List.Forall₂ (fun p st => TS.signature_key_match p st = true)
          (parents.take (sig.length - 1))
          (sig.dropLast.reverse.take parents.length))) := by
  constructor
  · intro path sig
    unfold WB.sigMatchStream
    rw [zip_trunc_both]
    have hd1 : (path.drop (path.length - sig.length)).take sig.length =
        path.drop (path.length - sig.length) := by
      apply List.take_of_length_le
      rw [List.length_drop]
      omega
    have hd2 : sig.take (path.drop (path.length - sig.length)).length =
        sig.take path.length := by
      rw [List.length_drop]
      rcases Nat.le_total sig.length path.length with hle | hle
      · rw [Nat.sub_sub_self hle, List.take_of_length_le (le_refl _),
          List.take_of_length_le hle]
      · rw [Nat.sub_eq_zero_of_le hle, Nat.sub_zero]
    rw [hd1, hd2]
    apply all_zip_iff_forall2
    rw [List.length_drop, List.length_take]
    omega
  · intro sig k tag parents hk
    unfold TS.signature_match
    rw [hk]
    dsimp only
    rw [Bool.and_eq_true]
    have hlen : sig.dropLast.reverse.length = sig.length - 1 := by
      rw [List.length_reverse, List.length_dropLast]
    constructor
    · rintro ⟨h1, h2⟩
      refine ⟨h1, ?_⟩
      rw [zip_trunc_both, hlen] at h2
      have := (all_zip_iff_forall2 _ _ _ ?_).mp h2
      · exact this
      · rw [List.length_take, List.length_take, hlen]
        omega
    · rintro ⟨h1, h2⟩
      refine ⟨h1, ?_⟩
      rw [zip_trunc_both, hlen]
      refine (all_zip_iff_forall2 _ _ _ ?_).mpr h2
      rw [List.length_take, List.length_take, hlen]
      omega

/-- C1 witness: the amended theorem instantiated at the title signature on
its exact consecutive path, with the hypothesis discharged concretely. -/
theorem c1_witness :
    TS.signature_match TS.sigTitleT ⟨"a", []⟩
        [⟨"h3", []⟩, ⟨"div", [("class", "item-subject")]⟩, TS.docTag] =
        true ↔
      TS.signature_key_match ⟨"a", []⟩ ("a", []) = true ∧
      List.Forall₂ (fun p st => TS.signature_key_match p st = true)
        ([⟨"h3", []⟩, ⟨"div", [("class", "item-subject")]⟩,
          TS.docTag].take (TS.sigTitleT.length - 1))
        (TS.sigTitleT.dropLast.reverse.take 3) :=
  c1_amended.2 TS.sigTitleT ("a", []) ⟨"a", []⟩
    [⟨"h3", []⟩, ⟨"div", [("class", "item-subject")]⟩, TS.docTag] (by decide)

/-- C2 counterexample: for a frame whose class attribute holds the tokens
item-subject and extra, the token-set semantics of the claim accepts the
constraint class equals the token item-subject, but the code compares the
constraint list against the whole token list for equality and rejects it,
so the claimed equivalence fails. -/
theorem c2_counterexample :
    Spec.claimTokenKeyMatch ⟨"div", [("class", "item-subject extra")]⟩
      ("div", [("class", TS.PyVal.list ["item-subject"])]) = true ∧
    TS.signature_key_match ⟨"div", [("class", "item-subject extra")]⟩
      ("div", [("class", TS.PyVal.list ["item-subject"])]) = false := by
  decide

/-- C2 amended: the per-element matcher returns true iff the names are
equal and every required attribute is present with a value that either
satisfies a falsy (empty) constraint vacuously or equals the constraint
exactly — for a multi-valued attribute such as class this is equality of
the whole whitespace-split token list, not token-set containment. -/
theorem c2_amended (tag : TS.BTag) (key : TS.SigKey) :
    TS.signature_key_match tag key = true ↔
      tag.name = key.1 ∧
      ∀ av ∈ key.2, ∃ w, TS.bs4Get tag.attrs av.1 = some w ∧
        (TS.pyTruthy av.2 = true → av.2 = w) := by
  unfold TS.signature_key_match
  rw [Bool.and_eq_true, List.all_eq_true]
  constructor
  · rintro ⟨h1, h2⟩
    refine ⟨eq_of_beq h1, ?_⟩
    intro av hav
    have h3 := h2 av hav
    cases hw : TS.bs4Get tag.attrs av.1 with
    | none => rw [hw] at h3; cases h3
    | some w =>
      rw [hw] at h3
      dsimp only at h3
      rw [Bool.or_eq_true] at h3
      refine ⟨w, rfl, ?_⟩
      intro ht
      rcases h3 with h3 | h3
      · rw [ht] at h3; cases h3
      · exact eq_of_beq h3
  · rintro ⟨h1, h2⟩
    refine ⟨by rw [h1]; exact beq_self_eq_true _, ?_⟩
    intro av hav
    obtain ⟨w, hw, himp⟩ := h2 av hav
    rw [hw]
    dsimp only
    rw [Bool.or_eq_true]
    cases ht : TS.pyTruthy av.2 with
    | false => exact Or.inl rfl
    | true => exact Or.inr (by rw [himp ht]; exact beq_self_eq_true w)

/-- C3 counterexample: a document that ends right after opening a marker
block parses without any error: the run returns normally with the record
still open and the output list empty, refuting that end-of-input inside a
record fails with an unclosed-record error. -/
theorem c3_counterexample :
    WB.runP [.starttag "div" [("class", "main-item"), ("id", "t1")]]
        WB.initP =
      .ok ⟨[("div", [("class", "main-item"), ("id", "t1")])],
           some [("id", WB.Value.str "t1")], 1, []⟩ := by decide

/-- C3 amended: when input ends while a record is still open, the parse
completes without error and the output holds exactly the records sealed
before end of input; the in-progress record is silently discarded rather
than reported. -/
theorem c3_amended (f g : WB.HForest) (a : List (String × String))
    (s2 : WB.PState) (hmk : WB.markerClass a = true)
    (hrun : WB.runP (WB.flattenF f ++ .starttag "div" a :: WB.flattenF g)
        WB.initP = .ok s2) :
    s2.listitem.isSome = true ∧
    s2.tracks.map WB.trackId =
      (WB.markerIdsF f).map (fun v => some (WB.Value.str v)) := by
  rw [show (WB.flattenF f ++ .starttag "div" a :: WB.flattenF g) =
        WB.flattenF f ++ ([.starttag "div" a] ++ WB.flattenF g) from by simp,
    WB.runP_append] at hrun
  cases hf : WB.runP (WB.flattenF f) WB.initP with
  | error e => rw [hf] at hrun; exact (WB.bindErr hrun).elim
  | ok s1 =>
    rw [hf, WB.bindOk, WB.runP_append] at hrun
    obtain ⟨o1, l1, i1, t1⟩ := WB.runClosedF f WB.initP s1 rfl rfl hf
    cases hid : WB.pyGet a "id" with
    | none =>
      rw [show WB.runP [WB.Event.starttag "div" a] s1 = .error .missingKey
            from by
          rw [WB.runP_cons, show WB.stepP s1 (.starttag "div" a) =
              .error .missingKey from by simp [WB.stepP, hmk, l1, hid]]
          rfl] at hrun
      exact (WB.bindErr hrun).elim
    | some v =>
      rw [show WB.runP [WB.Event.starttag "div" a] s1 =
            .ok ⟨s1.opentags ++ [("div", a)], some [("id", WB.Value.str v)],
                 s1.opentags.length + 1, s1.tracks⟩ from by
          rw [WB.runP_cons,
            WB.stepP_start_marker_new s1 "div" a v (by simp [hmk]) l1 hid]
          rfl, WB.bindOk] at hrun
      obtain ⟨o2, i2, t2, m2, r2, l2, id2⟩ :=
        WB.runOpenF g _ [("id", WB.Value.str v)] s2 rfl (by simp) hrun
      refine ⟨by rw [l2]; rfl, ?_⟩
      rw [t2]
      rw [show (⟨s1.opentags ++ [("div", a)], some [("id", WB.Value.str v)],
            s1.opentags.length + 1, s1.tracks⟩ : WB.PState).tracks =
          s1.tracks from rfl, t1]
      simp [WB.initP]

/-- C3 witness: the amended theorem applied to the empty document followed
by a bare marker start. -/
theorem c3_witness :
    (some [("id", WB.Value.str "x")] : Option WB.Record).isSome = true ∧
    ([] : List (Option WB.Record)).map WB.trackId =
      (WB.markerIdsF .nil).map (fun v => some (WB.Value.str v)) :=
  c3_amended .nil .nil [("class", "main-item"), ("id", "x")]
    ⟨[("div", [("class", "main-item"), ("id", "x")])],
     some [("id", WB.Value.str "x")], 1, []⟩ (by decide) (by decide)

/-- C4: first, while a record is open, a successful close event for a
non-ignored tag seals the record (appends it to the output and clears the
open state) exactly when the post-pop depth is strictly below the recorded
marker depth; second, a well-nested document yields exactly one output
record per marker block, in document order (witnessed by the marker id
attributes), whenever the parse succeeds. -/
theorem c4_sealing_and_count (f : WB.HForest) :
    (∀ (s : WB.PState) (r : WB.Record) (tag : String) (s2 : WB.PState),
      s.listitem = some r → tag ≠ "input" →
      WB.stepP s (.endtag tag) = .ok s2 →
      ((s2.tracks = s.tracks ++ [some r] ∧ s2.listitem = none) ↔
        s.opentags.length - 1 < s.itemdepth)) ∧
    (∀ s2 : WB.PState, WB.runP (WB.flattenF f) WB.initP = .ok s2 →
      s2.tracks.map WB.trackId =
        (WB.markerIdsF f).map (fun v => some (WB.Value.str v)) ∧
      s2.tracks.length = (WB.markerIdsF f).length) := by
  constructor
  · intro s r tag s2 hli htag hok
    have hti : (tag == "input") = false := by simp [htag]
    cases hlast : s.opentags.getLast? with
    | none =>
      rw [WB.stepP_end_mismatch s tag hti (by rw [hlast]; simp)] at hok
      cases hok
    | some top =>
      by_cases hbe : top.1 = tag
      · by_cases hd : s.opentags.dropLast.length < s.itemdepth
        · rw [WB.stepP_end_seal s tag top hti hlast hbe hd] at hok
          cases hok
          refine iff_of_true ⟨by rw [hli], rfl⟩ ?_
          rw [← List.length_dropLast]
          exact hd
        · rw [WB.stepP_end_noseal s tag top hti hlast hbe hd] at hok
          cases hok
          refine iff_of_false ?_ ?_
          · rintro ⟨htr, _⟩
            have := congrArg List.length htr
            simp at this
          · intro hlt
            apply hd
            rw [List.length_dropLast]
            exact hlt
      · rw [WB.stepP_end_mismatch s tag hti
            (by rw [hlast, Option.map_some']; simp [hbe])] at hok
        cases hok
  · intro s2 hrun
    obtain ⟨o2, l2, i2, t2⟩ := WB.runClosedF f WB.initP s2 rfl rfl hrun
    have ht : s2.tracks.map WB.trackId =
        (WB.markerIdsF f).map (fun v => some (WB.Value.str v)) := by
      rw [t2]
      simp [WB.initP]
    refine ⟨ht, ?_⟩
    have := congrArg List.length ht
    simpa using this

/-- C4 witness: the sealing characterization applied at a concrete close
that seals, and the counting conclusion applied to a one-marker document. -/
theorem c4_witness :
    (([some [("id", WB.Value.str "x")]] : List (Option WB.Record)) =
        [] ++ [some [("id", WB.Value.str "x")]] ∧
      (none : Option WB.Record) = none) ∧
    (([some [("id", WB.Value.str "t1")]] : List (Option WB.Record)).map
        WB.trackId =
      (WB.markerIdsF forestOneMarker).map (fun v => some (WB.Value.str v)) ∧
    ([some [("id", WB.Value.str "t1")]] : List (Option WB.Record)).length =
      (WB.markerIdsF forestOneMarker).length) := by
  constructor
  · exact ((c4_sealing_and_count WB.HForest.nil).1
      ⟨[("div", [])], some [("id", WB.Value.str "x")], 1, []⟩
      [("id", WB.Value.str "x")] "div"
      ⟨[], none, 0, [some [("id", WB.Value.str "x")]]⟩
      rfl (by decide) (by decide)).mpr (by decide)
  · exact (c4_sealing_and_count forestOneMarker).2
      ⟨[], none, 0, [some [("id", WB.Value.str "t1")]]⟩ (by decide)

/-- C9 counterexample: on a record holding two title matches (texts First
then Second), the tree scraper stores the conversion of the FIRST match
(`result[0]`), not the last: the extracted title is First although the
last matching text is Second, refuting last-match-wins for this code. -/
theorem c9_counterexample :
    TS.feedT docTwoTitles = ([("title", 2)], .ok [[("title", "First")]]) ∧
    ("First" : String) ≠ "Second" := by decide

/-- C9 amended: in the streaming watcher each matching text event runs the
converter and overwrites the field, so the sealed value is the conversion
of the last matching text event; in the tree scraper the field is instead
the conversion of the first matching location, the converter running once
per field. -/
theorem c9_last_vs_first :
    (∀ (ds : List String) (d0 : String) (s : WB.PState) (r : WB.Record),
      s.listitem = some r →
      WB.sigMatchStream s.opentags WB.sigTitleW = true →
      WB.sigMatchStream s.opentags WB.sigWeekW = false →
      WB.sigMatchStream s.opentags WB.sigCommentsW = false →
      ∃ r2, WB.runP ((d0 :: ds).map .data) s =
          .ok { s with listitem := some r2 } ∧
        WB.rget r2 "title" = some (WB.Value.str (ds.getLastD d0))) ∧
    (∀ (f : TS.Found) (r0 : TS.Found) (rest : List TS.Found),
      TS.findMatches f TS.sigTitleT = r0 :: rest →
      TS.processTrack f =
        ((if (r0 :: rest).length != 1 then [("title", (r0 :: rest).length)]
          else []),
         .ok [("title", TS.pyStrOpt
           (TS.nodeString (.elem r0.tag.name r0.tag.attrs r0.kids)))])) :=
  ⟨runDataLast, processTrack_first⟩

/-- C9 witness: the watcher side applied to two text events A then B on a
title-matching path (the field ends as B), and the scraper side applied to
the two-title track (the field is the first match, First). -/
theorem c9_witness :
    (∃ r2, WB.runP [.data "A", .data "B"]
        ⟨[("div", [("class", "item-subject")]), ("h3", []), ("a", [])],
         some [("id", WB.Value.str "x")], 1, []⟩ =
        .ok { (⟨[("div", [("class", "item-subject")]), ("h3", []),
                  ("a", [])],
               some [("id", WB.Value.str "x")], 1, []⟩ : WB.PState) with
              listitem := some r2 } ∧
      WB.rget r2 "title" = some (WB.Value.str "B")) ∧
    TS.processTrack foundTrackTwoTitles =
      ([("title", 2)], .ok [("title", "First")]) := by
  constructor
  · exact c9_last_vs_first.1 ["B"] "A"
      ⟨[("div", [("class", "item-subject")]), ("h3", []), ("a", [])],
       some [("id", WB.Value.str "x")], 1, []⟩
      [("id", WB.Value.str "x")] rfl (by decide) (by decide) (by decide)
  · exact c9_last_vs_first.2 foundTrackTwoTitles foundFirstTitle
      [foundSecondTitle] rfl

